import Mathlib

/-!
Verification of the `neuroglia` calcium-trace preprocessing pipeline
(`src/neuroglia/calcium.py`).

A trace table is modelled as an ordered association list from column name
(neuron id) to the column's values.  Numeric values are modelled as exact
rationals `ℚ` for the median / percentile components (whose algorithms are
order-and-field operations), and as reals `ℝ` for the logarithmic rescaling
component.  `numpy` double arithmetic is idealised as exact arithmetic;
non-real results (NaN / infinities, e.g. `np.log` of a non-positive number or
division by a zero baseline) are modelled by `Option`, with `none` standing
for a non-real IEEE value.

Python exceptions are modelled with `Except PyErr`.  Each transformer's
instance-local mutable `fit_params` dict is modelled by explicit state
passing: `transform` receives the current mapping and returns the mapping as
left after the call (also when it raises part-way through the column loop,
as the real code leaves the partially-updated dict behind).
-/

/-- Taxonomy of the failures the pipeline can signal, following §7 of the
specification, plus the Python `NameError` that `Normalize.transform` and
`normalize_trace` actually raise (the module never imports `pandas`, so the
name `pd` — and `Normalize.transform`'s loop target `df` — are undefined). -/
inductive PyErr where
  | invalidConfiguration
  | invalidInput
  | nameError
  | notImplemented
deriving DecidableEq, Repr

/-- A trace table: ordered, named real-valued columns (one per neuron). -/
abbrev Table (α : Type) := List (String × List α)

/-- Python dict assignment `m[k] = v` (insertion-ordered dict): if `k` is
already a key its value is replaced in place, otherwise `(k, v)` is appended. -/
def dictInsert {β : Type} (m : List (String × β)) (k : String) (v : β) :
    List (String × β) :=
  if m.any (fun p => p.1 = k) then m.map (fun p => if p.1 = k then (k, v) else p)
  else m ++ [(k, v)]

/-- `np.median`: middle element of the sorted data for odd length, mean of the
two middle elements for even length.  (For the empty list `numpy` returns NaN
with a warning; the spec requires callers to guarantee non-empty input, and
the junk value `0` returned here is never relied upon.) -/
def npMedian (x : List ℚ) : ℚ :=
  let s := x.insertionSort (· ≤ ·)
  let n := x.length
  if n % 2 = 1 then s.getD (n / 2) 0
  else (s.getD (n / 2 - 1) 0 + s.getD (n / 2) 0) / 2

/-- The window of `scipy.signal.medfilt` centred at position `i`: `w`
consecutive samples starting at `i - w/2`, out-of-range positions reading as
`0` (scipy's zero-padding boundary convention, spec §4.2). -/
def medfiltWindow (x : List ℚ) (w i : ℕ) : List ℚ :=
  (List.range w).map fun (j : ℕ) =>
    let k : ℤ := (i : ℤ) + (j : ℤ) - ((w / 2 : ℕ) : ℤ)
    if 0 ≤ k ∧ k < (x.length : ℤ) then x.getD k.toNat 0 else 0

/-- Sliding-window median with zero padding: the value at each position is the
median of the centred window there. -/
def medfiltRaw (x : List ℚ) (w : ℕ) : List ℚ :=
  (List.range x.length).map fun i => npMedian (medfiltWindow x w i)

/-- Modelled from the spec: `scipy.signal.medfilt` is an external numerical
primitive (not part of this repository).  Spec §4.2: the sliding median uses a
centred window with zero padding and "Fails if `window` is even or exceeds
sequence length — signal this as an InvalidConfiguration error"; the even-kernel
rejection is also scipy's own `ValueError`. -/
def medfilt (x : List ℚ) (w : ℕ) : Except PyErr (List ℚ) :=
  if w % 2 = 0 then .error .invalidConfiguration
  else if x.length < w then .error .invalidConfiguration
  else .ok (medfiltRaw x w)

namespace MedianFilterDetrend

/-- `MedianFilterDetrend.robust_std`: `MAD = np.median(np.abs(x - np.median(x)))`,
returning `1.4826 * MAD`. -/
def robust_std (x : List ℚ) : ℚ :=
  let MAD := npMedian (x.map fun v => |v - npMedian x|)
  (14826 / 10000 : ℚ) * MAD

/-- The per-transformer fit-parameter state: the instance attribute
`fit_params`, a Python dict from column name to that column's recorded
baseline (`dict(mf=mf)` is modelled by the baseline list itself). -/
structure State where
  fit_params : List (String × List ℚ)
deriving DecidableEq, Repr

/-- `MedianFilterDetrend.fit`: resets `self.fit_params = {}`; performs no
column computation. -/
def fit (_st : State) : State := ⟨[]⟩

/-- The body of `MedianFilterDetrend.transform`'s loop for one column:
`mf = medfilt(tmp_data, window)`, then
`mf = np.minimum(mf, peak_std_threshold * robust_std(mf))` (elementwise min
with a scalar computed from the raw filter output), and the detrended output
`tmp_data - mf`.  Returns `(clamped baseline, output column)`. -/
def detrendCol (window : ℕ) (peak_std_threshold : ℚ) (x : List ℚ) :
    Except PyErr (List ℚ × List ℚ) :=
  (medfilt x window).map fun mfRaw =>
    let mf := mfRaw.map fun v => min v (peak_std_threshold * robust_std mfRaw)
    (mf, x.zipWith (fun a b => a - b) mf)

/-- The column loop of `MedianFilterDetrend.transform`: for each column in
order, detrend it, record `self.fit_params[col] = dict(mf=mf)` (a dict insert,
so earlier keys survive), and collect the output column.  A failure inside the
loop propagates the exception, keeping the `fit_params` updates already made. -/
def transformGo (window : ℕ) (peak_std_threshold : ℚ) :
    Table ℚ → State → State × Except PyErr (Table ℚ)
  | [], st => (st, .ok [])
  | (n, x) :: rest, st =>
    match detrendCol window peak_std_threshold x with
    | .error e => (st, .error e)
    | .ok (mf, out) =>
      let st1 : State := ⟨dictInsert st.fit_params n mf⟩
      match transformGo window peak_std_threshold rest st1 with
      | (st2, .error e) => (st2, .error e)
      | (st2, .ok ys) => (st2, .ok ((n, out) :: ys))

/-- `MedianFilterDetrend.transform`: `X_new = X.copy()`, then the per-column
loop; returns the updated `fit_params` state together with the result. -/
def transform (window : ℕ) (peak_std_threshold : ℚ) (st : State) (X : Table ℚ) :
    State × Except PyErr (Table ℚ) :=
  transformGo window peak_std_threshold X st

end MedianFilterDetrend

namespace SavGolFilterDetrend

/-- Modelled from the spec: `scipy.signal.savgol_filter` is an external
numerical primitive (not part of this repository).  Spec §4.3: "Fails with
InvalidConfiguration if `window <= order` or `window` is even"; otherwise it
returns the least-squares local-polynomial smoothing of the input, which is
kept abstract here as a parameter `core` (no claim depends on its values),
constrained where needed by the contract that it preserves length. -/
def savgol_filter (core : ℕ → ℕ → List ℚ → List ℚ) (x : List ℚ)
    (window order : ℕ) : Except PyErr (List ℚ) :=
  if window % 2 = 0 then .error .invalidConfiguration
  else if window ≤ order then .error .invalidConfiguration
  else .ok (core window order x)

/-- `SavGolFilterDetrend.fit`: resets `self.fit_params = {}`. -/
def fit (_fp : List (String × List ℚ)) : List (String × List ℚ) := []

/-- The column loop of `SavGolFilterDetrend.transform`:
`sgf = savgol_filter(tmp_data, window, order)`,
`self.fit_params[col] = dict(sgf=sgf)`, `X_new[col] = tmp_data - sgf`. -/
def transformGo (core : ℕ → ℕ → List ℚ → List ℚ) (window order : ℕ) :
    Table ℚ → List (String × List ℚ) →
      List (String × List ℚ) × Except PyErr (Table ℚ)
  | [], fp => (fp, .ok [])
  | (n, x) :: rest, fp =>
    match savgol_filter core x window order with
    | .error e => (fp, .error e)
    | .ok sgf =>
      let fp1 := dictInsert fp n sgf
      match transformGo core window order rest fp1 with
      | (fp2, .error e) => (fp2, .error e)
      | (fp2, .ok ys) => (fp2, .ok ((n, x.zipWith (fun a b => a - b) sgf) :: ys))

/-- `SavGolFilterDetrend.transform`: `X_new = X.copy()` and the column loop. -/
def transform (core : ℕ → ℕ → List ℚ → List ℚ) (window order : ℕ)
    (fp : List (String × List ℚ)) (X : Table ℚ) :
    List (String × List ℚ) × Except PyErr (Table ℚ) :=
  transformGo core window order X fp

end SavGolFilterDetrend

/-- Model of `np.log` on a real argument: the real logarithm where it is
defined and positive-argument, and `none` for the non-real IEEE results
(`-inf` at `0`, NaN on negatives).  `numpy` only emits a RuntimeWarning for
these, it does not raise. -/
noncomputable def npLog (x : ℝ) : Option ℝ :=
  if 0 < x then some (Real.log x) else none

namespace EventRescale

/-- The per-column body of `EventRescale.transform`:
`tmp_data = X[col].values.astype(np.double)` (a fresh copy),
`tmp_data *= self.scale`, and if `log_transform` then
`tmp_data = np.log(1 + tmp_data)`.  Real numbers that stay real are wrapped
in `some`; non-real log results are `none`. -/
noncomputable def rescaleCol (log_transform : Bool) (scale : ℝ) (x : List ℝ) :
    List (Option ℝ) :=
  let scaled := x.map fun v => v * scale
  if log_transform then scaled.map fun v => npLog (1 + v)
  else scaled.map some

/-- `EventRescale.transform`: `X_new = X.copy()`, then each column is
replaced by its rescaled values.  The body contains no `raise` and `np.log`
does not raise, so the call always returns a table. -/
noncomputable def transform (log_transform : Bool) (scale : ℝ) (X : Table ℝ) :
    Except PyErr (Table (Option ℝ)) :=
  .ok (X.map fun p => (p.1, rescaleCol log_transform scale p.2))

end EventRescale

/-- `np.percentile` with the default linear interpolation: for sorted data
`s` of length `n`, the value at fractional position `pos = q/100 * (n-1)`,
interpolating between the neighbouring order statistics. -/
def npPercentile (x : List ℚ) (q : ℚ) : ℚ :=
  let s := x.insertionSort (· ≤ ·)
  let n := x.length
  if n = 0 then 0
  else
    let pos : ℚ := q / 100 * ((n : ℚ) - 1)
    let lo : ℕ := (⌊pos⌋).toNat
    let hi : ℕ := min (lo + 1) (n - 1)
    let a := s.getD lo 0
    let b := s.getD hi 0
    a + (pos - ((⌊pos⌋ : ℤ) : ℚ)) * (b - a)

/-- pandas `Series.rolling(window=w, center=True).apply(f)`: position `t`
holds `f` of the centred width-`w` window when that window lies fully inside
the series, and NaN (`none`) otherwise (the default `min_periods` equals the
window size). -/
def rollingApply (f : List ℚ → ℚ) (w : ℕ) (x : List ℚ) : List (Option ℚ) :=
  (List.range x.length).map fun (t : ℕ) =>
    if 0 ≤ (t : ℤ) - (((w - 1) / 2 : ℕ) : ℤ) ∧
        (t : ℤ) - (((w - 1) / 2 : ℕ) : ℤ) + (w : ℤ) ≤ (x.length : ℤ) then
      some (f ((List.range w).map fun j =>
        x.getD ((((t : ℤ) - (((w - 1) / 2 : ℕ) : ℤ)).toNat) + j) 0))
    else none

/-- Helper for forward fill: carry the last seen valid value into NaN slots. -/
def ffillGo : Option ℚ → List (Option ℚ) → List (Option ℚ)
  | _, [] => []
  | _, some v :: rest => some v :: ffillGo (some v) rest
  | last, none :: rest => last :: ffillGo last rest

/-- `Series.fillna(method='ffill')`: propagate the last valid value forward;
leading NaNs stay NaN. -/
def ffill (x : List (Option ℚ)) : List (Option ℚ) := ffillGo none x

/-- `Series.fillna(method='bfill')`: propagate the next valid value backward;
trailing NaNs stay NaN. -/
def bfill (x : List (Option ℚ)) : List (Option ℚ) := (ffill x.reverse).reverse

/-- `normalize_trace` as written in the source: the module imports only
`numpy`, `sklearn.base`, `oasis.functions` and `scipy.signal` — `pandas` is
never imported — so its first statement `trace = pd.Series(trace)` raises a
Python `NameError` (`pd` is undefined) on every call, before any numerical
work is reached. -/
def normalize_trace (_trace : List ℚ) (_window : ℕ) (_percentile : ℚ) :
    Except PyErr (List (Option ℚ)) :=
  .error .nameError

/-- Modelled from the spec: the rolling-percentile dF/F computation of spec
§4.5, spelled out statement-by-statement by the (unreachable) body of
`normalize_trace`: rolling-percentile baseline over a centred window,
`bfill` then `ffill` of the edge NaNs, `dF = trace - baseline`,
`dFF = dF / F`.  Subtraction and division propagate NaN, and division by a
zero baseline gives a non-real IEEE value (`none`).  It is modelled
separately because the source's missing `pandas` import makes the body of
`normalize_trace` unreachable, while the claim is about this computation. -/
def normalize_trace_intended (trace : List ℚ) (window : ℕ) (percentile : ℚ) :
    List (Option ℚ) :=
  trace.zipWith
    (fun v b =>
      match b with
      | none => none
      | some c => if c = 0 then none else some ((v - c) / c))
    (ffill (bfill (rollingApply (fun win => npPercentile win percentile) window trace)))

/-- `Normalize.transform` as written in the source: its first statement
`df_norm = pd.DataFrame()` raises a Python `NameError` (`pd` is undefined —
`pandas` is never imported), so every call fails regardless of the input
table; the next line's loop over the likewise-undefined global `df` would
raise the same error, and the hard-coded `window=180, percentile=8` in the
loop body mean the configured `self.window` and `self.percentile` are never
read. -/
def Normalize.transform (_window : ℕ) (_percentile : ℚ) (_X : Table ℚ) :
    Except PyErr (Table (Option ℚ)) :=
  .error .nameError

/-!
Heap-level model, used for the frame property "transform never mutates the
input table's columns in place".  numpy arrays are buffers in a store and a
table column is a named reference to a buffer.  `X[col].values` is a view of
the column's own buffer, `.astype(np.double)` allocates a fresh copy of it,
`X.copy()` (pandas deep copy) allocates a fresh copy of every column buffer,
the in-place `tmp_data *= scale` writes through the reference it is applied
to, and `X_new[col] = arr` stores values into `X_new`'s column slot.
-/

/-- A store of numpy array buffers, addressed by allocation index. -/
abbrev Heap := List (List ℚ)

/-- Read the buffer at address `l` (a dangling address reads as empty). -/
def Heap.read (h : Heap) (l : ℕ) : List ℚ := List.getD h l []

/-- Allocate a fresh buffer holding `v`, returning its address. -/
def Heap.alloc (h : Heap) (v : List ℚ) : Heap × ℕ := (List.append h [v], h.length)

/-- Overwrite the buffer at address `l` in place. -/
def Heap.write (h : Heap) (l : ℕ) (v : List ℚ) : Heap := List.set h l v

/-- A table at the heap level: named references to column buffers. -/
abbrev HTable := List (String × ℕ)

/-- pandas `X.copy()`: a deep copy — every column gets a freshly allocated
buffer holding the same values. -/
def pyCopyCols (h : Heap) : List (String × ℕ) → Heap × List (String × ℕ)
  | [] => (h, [])
  | (n, l) :: rest =>
    let al := h.alloc (h.read l)
    let r := pyCopyCols al.1 rest
    (r.1, (n, al.2) :: r.2)

/-- The heap shape shared by the `MedianFilterDetrend`, `SavGolFilterDetrend`
and `OASISInferer` column loops: for each pair (source column buffer of `X`,
destination column buffer of `X_new`), read the source through a view, take
its `astype(np.double)` copy, compute the new values purely (`f`), and store
them into the destination; a raised exception aborts the loop, leaving the
heap as reached so far. -/
def colLoop (f : List ℚ → Except PyErr (List ℚ)) (h : Heap) :
    List (ℕ × ℕ) → Heap
  | [] => h
  | (src, dst) :: rest =>
    let al := h.alloc (h.read src)
    match f (al.1.read al.2) with
    | .error _ => al.1
    | .ok vals => colLoop f (al.1.write dst vals) rest

/-- The `EventRescale` column loop at the heap level: the `astype` copy is
multiplied by `scale` in place, then (optionally) `np.log(1 + tmp_data)`
builds a new array, and the result is stored into `X_new`'s column.  The
numerical value of the logarithm is irrelevant to the frame property, so it
is a parameter `lg`. -/
def erLoop (log_transform : Bool) (scale : ℚ) (lg : ℚ → ℚ) (h : Heap) :
    List (ℕ × ℕ) → Heap
  | [] => h
  | (src, dst) :: rest =>
    let al := h.alloc (h.read src)
    let h2 := al.1.write al.2 ((al.1.read al.2).map fun v => v * scale)
    let vals :=
      if log_transform then (h2.read al.2).map fun v => lg (1 + v)
      else h2.read al.2
    erLoop log_transform scale lg (h2.write dst vals) rest

/-- `MedianFilterDetrend.transform` at the heap level. -/
def MedianFilterDetrend.transformHeap (window : ℕ) (peak_std_threshold : ℚ)
    (h : Heap) (X : HTable) : Heap × HTable :=
  let c := pyCopyCols h X
  (colLoop (fun x => (detrendCol window peak_std_threshold x).map Prod.snd)
      c.1 ((X.map Prod.snd).zip (c.2.map Prod.snd)),
    c.2)

/-- `SavGolFilterDetrend.transform` at the heap level. -/
def SavGolFilterDetrend.transformHeap (core : ℕ → ℕ → List ℚ → List ℚ)
    (window order : ℕ) (h : Heap) (X : HTable) : Heap × HTable :=
  let c := pyCopyCols h X
  (colLoop
      (fun x =>
        (savgol_filter core x window order).map fun sgf =>
          x.zipWith (fun a b => a - b) sgf)
      c.1 ((X.map Prod.snd).zip (c.2.map Prod.snd)),
    c.2)

/-- The per-column body of `OASISInferer.transform`: call the external
`deconvolve` solver (a parameter, per the spec §6 contract) on the column's
values, then emit the denoised trace for `output='denoised'`, the clipped
spikes `np.maximum(0, s)` for `output='spikes'`, and raise
`NotImplementedError` for anything else. -/
def OASISInferer.colFun (solver : List ℚ → List ℚ × List ℚ) (output : String)
    (x : List ℚ) : Except PyErr (List ℚ) :=
  let cs := solver x
  if output = "denoised" then .ok cs.1
  else if output = "spikes" then .ok (cs.2.map fun v => max 0 v)
  else .error .notImplemented

/-- `OASISInferer.transform` at the heap level. -/
def OASISInferer.transformHeap (solver : List ℚ → List ℚ × List ℚ)
    (output : String) (h : Heap) (X : HTable) : Heap × HTable :=
  let c := pyCopyCols h X
  (colLoop (OASISInferer.colFun solver output)
      c.1 ((X.map Prod.snd).zip (c.2.map Prod.snd)),
    c.2)

/-- `EventRescale.transform` at the heap level. -/
def EventRescale.transformHeap (log_transform : Bool) (scale : ℚ)
    (lg : ℚ → ℚ) (h : Heap) (X : HTable) : Heap × HTable :=
  let c := pyCopyCols h X
  (erLoop log_transform scale lg c.1 ((X.map Prod.snd).zip (c.2.map Prod.snd)),
    c.2)

/-! ### Helper lemmas about the numeric primitives -/

lemma getD_map_of_lt {α β : Type} (f : α → β) (l : List α) {i : ℕ}
    (h : i < l.length) (d : β) (d' : α) :
    (l.map f).getD i d = f (l.getD i d') := by
  have h' : i < (l.map f).length := by simpa using h
  rw [List.getD_eq_getElem?_getD, List.getD_eq_getElem?_getD,
    List.getElem?_eq_getElem h', List.getElem?_eq_getElem h]
  simp

lemma insertionSort_map_add (x : List ℚ) (C : ℚ) :
    (x.map fun v => v + C).insertionSort (· ≤ ·)
      = (x.insertionSort (· ≤ ·)).map fun v => v + C := by
  rw [List.map_insertionSort (· ≤ ·) (· ≤ ·) (fun v => v + C) x]
  intro a _ b _
  exact (add_le_add_iff_right C).symm

/-- Shifting every sample by a constant shifts `np.median` by that constant. -/
lemma npMedian_map_add (x : List ℚ) (C : ℚ) (hx : x ≠ []) :
    npMedian (x.map fun v => v + C) = npMedian x + C := by
  have hpos : 0 < x.length := List.length_pos.mpr hx
  have hslen : (x.insertionSort (· ≤ ·)).length = x.length :=
    List.length_insertionSort (fun a b : ℚ => a ≤ b) x
  unfold npMedian
  rw [insertionSort_map_add]
  simp only [List.length_map]
  rcases Nat.mod_two_eq_zero_or_one x.length with heven | hodd
  · have h2 : 2 ≤ x.length := by omega
    rw [if_neg (by omega), if_neg (by omega),
      getD_map_of_lt _ _ (by omega) 0 0, getD_map_of_lt _ _ (by omega) 0 0]
    ring
  · rw [if_pos hodd, if_pos hodd, getD_map_of_lt _ _ (by omega) 0 0]

/-! ### C10 -/

/-- C10: `robust_std` is invariant under a constant additive shift: for every
non-empty sequence `x` and constant `C`, `robust_std (x + C) = robust_std x`
(the median-based absolute deviations are unchanged by the shift). -/
theorem robust_std_shift_invariant (x : List ℚ) (C : ℚ) (hx : x ≠ []) :
    MedianFilterDetrend.robust_std (x.map fun v => v + C)
      = MedianFilterDetrend.robust_std x := by
  unfold MedianFilterDetrend.robust_std
  rw [npMedian_map_add x C hx, List.map_map]
  have hfun : ((fun v => |v - (npMedian x + C)|) ∘ fun v => v + C)
      = fun v => |v - npMedian x| := by
    funext v
    simp only [Function.comp_apply]
    ring_nf
  rw [hfun]

/-- Witness for C10 at `x = [1, 3]`, `C = 2`. -/
theorem robust_std_shift_invariant_witness :
    ([(1 : ℚ), 3] ≠ [] ∧
      MedianFilterDetrend.robust_std ([(1 : ℚ), 3].map fun v => v + 2)
        = MedianFilterDetrend.robust_std [(1 : ℚ), 3]) :=
  ⟨List.cons_ne_nil _ _,
    robust_std_shift_invariant [1, 3] 2 (List.cons_ne_nil _ _)⟩

/-! ### C4 -/

/-- C4: on a table with at least one column, `MedianFilterDetrend.transform`
raises InvalidConfiguration whenever the window is even or exceeds the
column length, instead of producing an output table. -/
theorem medianFilterDetrend_invalid_config
    (window : ℕ) (thr : ℚ) (st : MedianFilterDetrend.State)
    (n : String) (x : List ℚ) (rest : Table ℚ)
    (h : window % 2 = 0 ∨ x.length < window) :
    (MedianFilterDetrend.transform window thr st ((n, x) :: rest)).2
      = .error .invalidConfiguration := by
  unfold MedianFilterDetrend.transform MedianFilterDetrend.transformGo
    MedianFilterDetrend.detrendCol medfilt
  rcases h with h | h
  · simp [h, Except.map]
  · rcases Nat.mod_two_eq_zero_or_one window with h2 | h2
    · simp [h2, Except.map]
    · simp [h2, h, Except.map]

/-- Witness for C4 at an even window `2` on a one-column table. -/
theorem medianFilterDetrend_invalid_config_witness :
    ((2 % 2 = 0 ∨ ([(0 : ℚ)]).length < 2) ∧
      (MedianFilterDetrend.transform 2 4 ⟨[]⟩ [("a", [(0 : ℚ)])]).2
        = .error .invalidConfiguration) :=
  ⟨Or.inl rfl,
    medianFilterDetrend_invalid_config 2 4 ⟨[]⟩ "a" [0] [] (Or.inl rfl)⟩

/-! ### C5 -/

/-- C5: on a table with at least one column, `SavGolFilterDetrend.transform`
raises InvalidConfiguration whenever `window ≤ order` or the window is even,
instead of producing an output table (for every smoothing core). -/
theorem savGolFilterDetrend_invalid_config
    (core : ℕ → ℕ → List ℚ → List ℚ) (window order : ℕ)
    (fp : List (String × List ℚ)) (n : String) (x : List ℚ) (rest : Table ℚ)
    (h : window ≤ order ∨ window % 2 = 0) :
    (SavGolFilterDetrend.transform core window order fp ((n, x) :: rest)).2
      = .error .invalidConfiguration := by
  unfold SavGolFilterDetrend.transform SavGolFilterDetrend.transformGo
    SavGolFilterDetrend.savgol_filter
  rcases h with h | h
  · rcases Nat.mod_two_eq_zero_or_one window with h2 | h2
    · simp [h2]
    · simp [h2, h]
  · simp [h]


/-- Witness for C5 at `window = 2 ≤ order = 3` (also even). -/
theorem savGolFilterDetrend_invalid_config_witness :
    ((2 ≤ 3 ∨ 2 % 2 = 0) ∧
      (SavGolFilterDetrend.transform (fun _ _ v => v) 2 3 []
          [("a", [(0 : ℚ)])]).2 = .error .invalidConfiguration) :=
  ⟨Or.inl (by omega),
    savGolFilterDetrend_invalid_config (fun _ _ v => v) 2 3 [] "a" [0] []
      (Or.inl (by omega))⟩

/-! ### C2 and C8: the MedianFilterDetrend transform formula and its
fit-parameter bookkeeping -/

/-- The clamped baseline of one column:
`np.minimum(medfilt(x, window), peak_std_threshold * robust_std(medfilt(x, window)))`. -/
def MedianFilterDetrend.mfClamp (window : ℕ) (thr : ℚ) (x : List ℚ) : List ℚ :=
  (medfiltRaw x window).map fun v => min v (thr * MedianFilterDetrend.robust_std (medfiltRaw x window))

lemma MedianFilterDetrend.detrendCol_ok (window : ℕ) (thr : ℚ) (x : List ℚ)
    (hodd : window % 2 = 1) (hlen : window ≤ x.length) :
    MedianFilterDetrend.detrendCol window thr x =
      .ok (MedianFilterDetrend.mfClamp window thr x,
        x.zipWith (fun a b => a - b) (MedianFilterDetrend.mfClamp window thr x)) := by
  unfold MedianFilterDetrend.detrendCol medfilt MedianFilterDetrend.mfClamp
  rw [if_neg (by omega), if_neg (by omega)]
  rfl

/-- Closed form of the whole `MedianFilterDetrend.transform` call under a
valid configuration: each output column is the input column minus its clamped
baseline and each clamped baseline is dict-inserted into `fit_params`. -/
lemma MedianFilterDetrend.transform_eq (window : ℕ) (thr : ℚ) (hodd : window % 2 = 1) :
    ∀ (X : Table ℚ) (st : MedianFilterDetrend.State),
      (∀ p ∈ X, window ≤ p.2.length) →
      MedianFilterDetrend.transform window thr st X =
        (⟨X.foldl (fun m p => dictInsert m p.1 (MedianFilterDetrend.mfClamp window thr p.2))
            st.fit_params⟩,
          .ok (X.map fun p =>
            (p.1, p.2.zipWith (fun a b => a - b) (MedianFilterDetrend.mfClamp window thr p.2))))
  | [], _, _ => rfl
  | (n, x) :: rest, st, hlen => by
    have hx : window ≤ x.length := hlen (n, x) (by simp)
    have hrest : ∀ p ∈ rest, window ≤ p.2.length := fun p hp => hlen p (by simp [hp])
    have ih := MedianFilterDetrend.transform_eq window thr hodd rest
      ⟨dictInsert st.fit_params n (MedianFilterDetrend.mfClamp window thr x)⟩ hrest
    unfold MedianFilterDetrend.transform at ih ⊢
    unfold MedianFilterDetrend.transformGo
    rw [MedianFilterDetrend.detrendCol_ok window thr x hodd hx]
    simp only []
    rw [ih]
    simp

/-- C2: for every column `x` of the input table (valid configuration),
`MedianFilterDetrend.transform` outputs, elementwise, `x` minus the clamped
baseline
`min(medfilt(x, window), peak_std_threshold * 1.4826 * median(|medfilt(x, window) - median(medfilt(x, window))|))`
and records that clamped baseline for the column in the fit-parameter
mapping. -/
theorem medianFilterDetrend_transform_formula
    (window : ℕ) (peak_std_threshold : ℚ) (st : MedianFilterDetrend.State)
    (X : Table ℚ) (hodd : window % 2 = 1) (hlen : ∀ p ∈ X, window ≤ p.2.length) :
    MedianFilterDetrend.transform window peak_std_threshold st X =
      (⟨X.foldl
          (fun m p =>
            dictInsert m p.1
              ((medfiltRaw p.2 window).map fun v =>
                min v (peak_std_threshold * (14826 / 10000 : ℚ) *
                  npMedian ((medfiltRaw p.2 window).map fun u =>
                    |u - npMedian (medfiltRaw p.2 window)|))))
          st.fit_params⟩,
        .ok (X.map fun p =>
          (p.1, p.2.zipWith (fun a b => a - b)
            ((medfiltRaw p.2 window).map fun v =>
              min v (peak_std_threshold * (14826 / 10000 : ℚ) *
                npMedian ((medfiltRaw p.2 window).map fun u =>
                  |u - npMedian (medfiltRaw p.2 window)|)))))) := by
  rw [MedianFilterDetrend.transform_eq window peak_std_threshold hodd X st hlen]
  have hclamp : ∀ x : List ℚ, MedianFilterDetrend.mfClamp window peak_std_threshold x
      = (medfiltRaw x window).map fun v =>
          min v (peak_std_threshold * (14826 / 10000 : ℚ) *
            npMedian ((medfiltRaw x window).map fun u =>
              |u - npMedian (medfiltRaw x window)|)) := by
    intro x
    unfold MedianFilterDetrend.mfClamp MedianFilterDetrend.robust_std
    simp only [mul_assoc]
  simp only [hclamp]

set_option maxHeartbeats 1000000 in
/-- Witness for C2 on the one-column table `[("a", [1])]` with `window = 1`,
`peak_std_threshold = 4`: the baseline is clamped to `0` and the output is
the input unchanged. -/
theorem medianFilterDetrend_transform_formula_witness :
    ((1 % 2 = 1 ∧ ∀ p ∈ [("a", [(1 : ℚ)])], 1 ≤ p.2.length) ∧
      MedianFilterDetrend.transform 1 4 ⟨[]⟩ [("a", [(1 : ℚ)])]
        = (⟨[("a", [(0 : ℚ)])]⟩, .ok [("a", [(1 : ℚ)])])) := by
  have h1 : (1 : ℕ) % 2 = 1 := rfl
  have h2 : ∀ p ∈ [("a", [(1 : ℚ)])], 1 ≤ p.2.length := by simp
  refine ⟨⟨h1, h2⟩, ?_⟩
  rw [medianFilterDetrend_transform_formula 1 4 ⟨[]⟩ [("a", [1])] h1 h2]
  norm_num [medfiltRaw, medfiltWindow, npMedian, List.insertionSort,
    List.orderedInsert, dictInsert, List.range_succ]

lemma dictInsert_eq_append {β : Type} (m : List (String × β)) (k : String) (v : β)
    (h : ∀ p ∈ m, p.1 ≠ k) : dictInsert m k v = m ++ [(k, v)] := by
  unfold dictInsert
  have hc : (m.any fun p => p.1 = k) = false := by
    simp only [List.any_eq_false, decide_eq_true_eq]
    exact h
  rw [hc]
  simp

/-- Keys of a fold of dict inserts over fresh, pairwise-distinct column
names: the existing keys followed by the column names, in order. -/
lemma foldl_dictInsert_keys (g : List ℚ → List ℚ) :
    ∀ (X : Table ℚ) (m : List (String × List ℚ)),
      (∀ p ∈ X, ∀ q ∈ m, q.1 ≠ p.1) → (X.map Prod.fst).Nodup →
      (X.foldl (fun acc p => dictInsert acc p.1 (g p.2)) m).map Prod.fst
        = m.map Prod.fst ++ X.map Prod.fst
  | [], m, _, _ => by simp
  | (n, x) :: rest, m, hdisj, hnd => by
    simp only [List.foldl_cons]
    have hmn : ∀ q ∈ m, q.1 ≠ n := fun q hq => hdisj (n, x) (by simp) q hq
    have hins : dictInsert m n (g x) = m ++ [(n, g x)] :=
      dictInsert_eq_append m n (g x) hmn
    have hn : n ∉ rest.map Prod.fst := by
      have := hnd
      simp only [List.map_cons, List.nodup_cons] at this
      exact this.1
    have hnd' : (rest.map Prod.fst).Nodup := by
      have := hnd
      simp only [List.map_cons, List.nodup_cons] at this
      exact this.2
    have hdisj' : ∀ p ∈ rest, ∀ q ∈ dictInsert m n (g x), q.1 ≠ p.1 := by
      intro p hp q hq
      rw [hins] at hq
      rcases List.mem_append.mp hq with hq | hq
      · exact hdisj p (by simp [hp]) q hq
      · have hq1 : q.1 = n := by
          simp only [List.mem_singleton] at hq
          rw [hq]
        rw [hq1]
        intro hcontra
        exact hn (hcontra ▸ List.mem_map_of_mem Prod.fst hp)
    rw [foldl_dictInsert_keys g rest (dictInsert m n (g x)) hdisj' hnd', hins]
    simp

/-- Amended C8: `fit` (not `transform`) resets the fit-parameter mapping;
after `fit` followed by a successful `transform(table)` the key list is
exactly the table's column list. -/
theorem medianFilterDetrend_fit_transform_keys
    (window : ℕ) (thr : ℚ) (st0 : MedianFilterDetrend.State) (X : Table ℚ)
    (hodd : window % 2 = 1) (hlen : ∀ p ∈ X, window ≤ p.2.length)
    (hnd : (X.map Prod.fst).Nodup) :
    ((MedianFilterDetrend.transform window thr (MedianFilterDetrend.fit st0)
        X).1).fit_params.map Prod.fst = X.map Prod.fst := by
  rw [MedianFilterDetrend.transform_eq window thr hodd X
    (MedianFilterDetrend.fit st0) hlen]
  have hkeys := foldl_dictInsert_keys (MedianFilterDetrend.mfClamp window thr)
    X [] (by simp) hnd
  simpa using hkeys

/-- Witness for the amended C8 at `fit` + one `transform` call. -/
theorem medianFilterDetrend_fit_transform_keys_witness :
    ((1 % 2 = 1 ∧ (∀ p ∈ [("a", [(1 : ℚ)])], 1 ≤ p.2.length) ∧
        (([("a", [(1 : ℚ)])] : Table ℚ).map Prod.fst).Nodup) ∧
      ((MedianFilterDetrend.transform 1 4 (MedianFilterDetrend.fit ⟨[]⟩)
          [("a", [(1 : ℚ)])]).1).fit_params.map Prod.fst = ["a"]) := by
  have h1 : (1 : ℕ) % 2 = 1 := rfl
  have h2 : ∀ p ∈ [("a", [(1 : ℚ)])], 1 ≤ p.2.length := by simp
  have h3 : (([("a", [(1 : ℚ)])] : Table ℚ).map Prod.fst).Nodup := by simp
  refine ⟨⟨h1, h2, h3⟩, ?_⟩
  have hk := medianFilterDetrend_fit_transform_keys 1 4 ⟨[]⟩ [("a", [1])] h1 h2 h3
  simpa using hk

set_option maxHeartbeats 1000000 in
/-- Counterexample to C8 as stated: after `fit`, a transform of the
one-column table `a` and then a transform of the one-column table `b`, the
fit-parameter keys are `["a", "b"]` — the key `a` from the earlier call
survives, so the key set is not the column set `["b"]` of the second table. -/
theorem medianFilterDetrend_transform_accumulates :
    (((MedianFilterDetrend.transform 1 4
          ((MedianFilterDetrend.transform 1 4 (MedianFilterDetrend.fit ⟨[]⟩)
              [("a", [(0 : ℚ)])]).1)
          [("b", [(0 : ℚ)])]).1).fit_params.map Prod.fst ≠ ["b"] ∧
      ((MedianFilterDetrend.transform 1 4
          ((MedianFilterDetrend.transform 1 4 (MedianFilterDetrend.fit ⟨[]⟩)
              [("a", [(0 : ℚ)])]).1)
          [("b", [(0 : ℚ)])]).1).fit_params.map Prod.fst = ["a", "b"]) := by
  have hev : ((MedianFilterDetrend.transform 1 4
        ((MedianFilterDetrend.transform 1 4 (MedianFilterDetrend.fit ⟨[]⟩)
            [("a", [(0 : ℚ)])]).1)
        [("b", [(0 : ℚ)])]).1).fit_params.map Prod.fst = ["a", "b"] := by
    have hab : ("a" : String) = "b" ↔ False := iff_false_intro (by decide)
    norm_num [MedianFilterDetrend.transform, MedianFilterDetrend.transformGo,
      MedianFilterDetrend.detrendCol, MedianFilterDetrend.robust_std,
      MedianFilterDetrend.fit, medfilt, medfiltRaw, medfiltWindow, npMedian,
      List.insertionSort, List.orderedInsert, dictInsert, List.range_succ,
      Except.map, hab]
  refine ⟨?_, hev⟩
  rw [hev]
  simp

/-! ### C1: output-shape invariant across the pipeline -/

/-- C1 (code bug): `Normalize.transform` never returns a table at all — for
every configuration and every input table it raises `NameError`: `pandas` is
never imported, so `pd.DataFrame()` fails at once (and the column loop's
global `df` is just as undefined).  So the shape invariant claimed for all
five transformers fails for `Normalize`. -/
theorem normalize_transform_raises (window : ℕ) (percentile : ℚ)
    (X : Table ℚ) :
    Normalize.transform window percentile X = .error .nameError := rfl

/-- Supporting fact: a valid `MedianFilterDetrend.transform` does preserve
column names, order, and column lengths. -/
theorem medianFilterDetrend_preserves_shape
    (window : ℕ) (thr : ℚ) (st : MedianFilterDetrend.State) (X : Table ℚ)
    (hodd : window % 2 = 1) (hlen : ∀ p ∈ X, window ≤ p.2.length) :
    ∃ Y, (MedianFilterDetrend.transform window thr st X).2 = .ok Y ∧
      Y.map Prod.fst = X.map Prod.fst ∧
      Y.map (fun p => p.2.length) = X.map (fun p => p.2.length) := by
  rw [MedianFilterDetrend.transform_eq window thr hodd X st hlen]
  refine ⟨_, rfl, by simp, ?_⟩
  simp only [List.map_map]
  apply List.map_congr_left
  intro p _
  simp only [Function.comp_apply]
  rw [List.length_zipWith]
  have hc : (MedianFilterDetrend.mfClamp window thr p.2).length = p.2.length := by
    simp [MedianFilterDetrend.mfClamp, medfiltRaw]
  omega

/-- Supporting fact: `EventRescale.transform` always returns a table with the
input's column names, order, and column lengths. -/
theorem eventRescale_preserves_shape (log_transform : Bool) (scale : ℝ)
    (X : Table ℝ) :
    ∃ Y, EventRescale.transform log_transform scale X = .ok Y ∧
      Y.map Prod.fst = X.map Prod.fst ∧
      Y.map (fun p => p.2.length) = X.map (fun p => p.2.length) := by
  refine ⟨_, rfl, by simp, ?_⟩
  simp only [List.map_map]
  apply List.map_congr_left
  intro p _
  simp only [Function.comp_apply]
  unfold EventRescale.rescaleCol
  rcases log_transform <;> simp

/-! ### C6 and C7: EventRescale -/

/-- C6: for every input column `x`, `EventRescale.transform` with
`log_transform=false` returns exactly `scale * x` elementwise, and with
`log_transform=true` returns exactly `log(1 + scale * x)` elementwise
(stated where the logarithm is real; the transform applies `rescaleCol` to
every column unchanged otherwise). -/
theorem eventRescale_elementwise (log_transform : Bool) (scale : ℝ)
    (X : Table ℝ) (x : List ℝ) (i : ℕ) (hi : i < x.length) :
    EventRescale.transform log_transform scale X =
      .ok (X.map fun p => (p.1, EventRescale.rescaleCol log_transform scale p.2)) ∧
    (EventRescale.rescaleCol false scale x).getD i none
      = some (scale * x.getD i 0) ∧
    (0 < 1 + scale * x.getD i 0 →
      (EventRescale.rescaleCol true scale x).getD i none
        = some (Real.log (1 + scale * x.getD i 0))) := by
  refine ⟨rfl, ?_, ?_⟩
  · unfold EventRescale.rescaleCol
    simp only [Bool.false_eq_true, if_false]
    rw [List.map_map, getD_map_of_lt _ _ hi none 0]
    simp [mul_comm]
  · intro hpos
    unfold EventRescale.rescaleCol
    simp only [if_true]
    rw [List.map_map, getD_map_of_lt _ _ hi none 0]
    simp only [Function.comp_apply]
    unfold npLog
    rw [if_pos (by rw [mul_comm] at hpos; exact hpos)]
    rw [mul_comm (x.getD i 0) scale]

/-- Witness for C6 at `x = [1]`, `scale = 5`, both branches. -/
theorem eventRescale_elementwise_witness :
    (((0 : ℕ) < [(1 : ℝ)].length ∧ (0 : ℝ) < 1 + 5 * [(1 : ℝ)].getD 0 0) ∧
      (EventRescale.rescaleCol false 5 [(1 : ℝ)]).getD 0 none
        = some (5 * [(1 : ℝ)].getD 0 0) ∧
      (EventRescale.rescaleCol true 5 [(1 : ℝ)]).getD 0 none
        = some (Real.log (1 + 5 * [(1 : ℝ)].getD 0 0))) := by
  have hi : (0 : ℕ) < [(1 : ℝ)].length := by simp
  have hpos : (0 : ℝ) < 1 + 5 * [(1 : ℝ)].getD 0 0 := by norm_num
  obtain ⟨-, h2, h3⟩ :=
    eventRescale_elementwise false 5 [("a", [(1 : ℝ)])] [(1 : ℝ)] 0 hi
  exact ⟨⟨hi, hpos⟩, h2, h3 hpos⟩

/-- Counterexample to C7 as stated: with `log_transform=true`, `scale = 5`
and the input value `-1` (so `1 + scale * x = -4 < 0`), `transform` does not
raise anything — it returns a table (with a NaN entry), not an error. -/
theorem eventRescale_log_no_raise_counterexample :
    ((1 + 5 * (-1 : ℝ) < 0) ∧
      EventRescale.transform true 5 [("a", [(-1 : ℝ)])]
        = .ok [("a", [none])]) := by
  refine ⟨by norm_num, ?_⟩
  unfold EventRescale.transform EventRescale.rescaleCol npLog
  norm_num

/-- Corrected C7: with `log_transform=true` and `1 + scale * x` negative at
some position of a column, `transform` does not fail: it returns a table of
the same shape in which each such position holds a non-real (NaN) value —
`np.log` only emits a RuntimeWarning on negative input. -/
theorem eventRescale_log_negative_nan (scale : ℝ) (X : Table ℝ)
    (x : List ℝ) (i : ℕ) (hi : i < x.length)
    (hneg : 1 + scale * x.getD i 0 < 0) :
    EventRescale.transform true scale X =
      .ok (X.map fun p => (p.1, EventRescale.rescaleCol true scale p.2)) ∧
    (EventRescale.rescaleCol true scale x).getD i none = none := by
  refine ⟨rfl, ?_⟩
  unfold EventRescale.rescaleCol
  simp only [if_true]
  rw [List.map_map, getD_map_of_lt _ _ hi none 0]
  simp only [Function.comp_apply]
  unfold npLog
  rw [if_neg]
  rw [mul_comm]
  exact not_lt.mpr (le_of_lt hneg)

/-- Witness for the corrected C7 at `x = [-1]`, `scale = 5`. -/
theorem eventRescale_log_negative_nan_witness :
    (((0 : ℕ) < [(-1 : ℝ)].length ∧ 1 + 5 * [(-1 : ℝ)].getD 0 0 < 0) ∧
      (EventRescale.rescaleCol true 5 [(-1 : ℝ)]).getD 0 none = none) := by
  have hi : (0 : ℕ) < [(-1 : ℝ)].length := by simp
  have hneg : 1 + 5 * [(-1 : ℝ)].getD 0 0 < 0 := by norm_num
  obtain ⟨-, h2⟩ :=
    eventRescale_log_negative_nan 5 [("a", [(-1 : ℝ)])] [(-1 : ℝ)] 0 hi hneg
  exact ⟨⟨hi, hneg⟩, h2⟩

/-! ### C9: transforms never mutate the input table's buffers -/

lemma Heap.length_write (h : Heap) (l : ℕ) (v : List ℚ) :
    (Heap.write h l v).length = h.length := List.length_set h l v

lemma Heap.read_append (h ext : Heap) (l : ℕ) (hl : l < h.length) :
    Heap.read (List.append h ext) l = Heap.read h l := by
  unfold Heap.read
  rw [List.getD_eq_getElem?_getD, List.getD_eq_getElem?_getD]
  simp only [List.append_eq]
  rw [List.getElem?_append_left hl]

lemma Heap.read_write_ne (h : Heap) (l l' : ℕ) (v : List ℚ) (hne : l' ≠ l) :
    Heap.read (Heap.write h l' v) l = Heap.read h l := by
  unfold Heap.read Heap.write
  rw [List.getD_eq_getElem?_getD, List.getD_eq_getElem?_getD,
    List.getElem?_set_ne hne]

/-- The shared column loop touches only freshly allocated buffers and the
destination buffers: every address below `N` is untouched when all
destinations are at or above `N`. -/
lemma colLoop_frame (f : List ℚ → Except PyErr (List ℚ)) (N : ℕ) :
    ∀ (pairs : List (ℕ × ℕ)) (h : Heap),
      N ≤ h.length → (∀ pr ∈ pairs, N ≤ pr.2) →
      ∀ l, l < N → Heap.read (colLoop f h pairs) l = Heap.read h l
  | [], _, _, _, _, _ => rfl
  | (src, dst) :: rest, h, hN, hd, l, hl => by
    have hdst : N ≤ dst := hd (src, dst) (by simp)
    have hlh : l < h.length := lt_of_lt_of_le hl hN
    unfold colLoop
    simp only [Heap.alloc]
    cases hf : f (Heap.read (List.append h [Heap.read h src]) h.length) with
    | error e =>
      simp only [hf]
      exact Heap.read_append h _ l hlh
    | ok vals =>
      simp only [hf]
      rw [colLoop_frame f N rest _
        (by rw [Heap.length_write]
            simp only [List.append_eq, List.length_append]; omega)
        (fun pr hpr => hd pr (by simp [hpr])) l hl]
      rw [Heap.read_write_ne _ _ _ _ (by omega)]
      exact Heap.read_append h _ l hlh

/-- Same frame fact for the `EventRescale` loop (which additionally writes
the in-place `*= scale` into the freshly allocated `astype` copy). -/
lemma erLoop_frame (log_transform : Bool) (scale : ℚ) (lg : ℚ → ℚ) (N : ℕ) :
    ∀ (pairs : List (ℕ × ℕ)) (h : Heap),
      N ≤ h.length → (∀ pr ∈ pairs, N ≤ pr.2) →
      ∀ l, l < N →
        Heap.read (erLoop log_transform scale lg h pairs) l = Heap.read h l
  | [], _, _, _, _, _ => rfl
  | (src, dst) :: rest, h, hN, hd, l, hl => by
    have hdst : N ≤ dst := hd (src, dst) (by simp)
    have hlh : l < h.length := lt_of_lt_of_le hl hN
    unfold erLoop
    simp only [Heap.alloc]
    rw [erLoop_frame log_transform scale lg N rest _
      (by rw [Heap.length_write, Heap.length_write]
          simp only [List.append_eq, List.length_append]; omega)
      (fun pr hpr => hd pr (by simp [hpr])) l hl]
    rw [Heap.read_write_ne _ _ _ _ (by omega),
      Heap.read_write_ne _ _ _ _ (by omega)]
    exact Heap.read_append h _ l hlh

lemma pyCopyCols_append :
    ∀ (cols : List (String × ℕ)) (h : Heap),
      ∃ ext : Heap, (pyCopyCols h cols).1 = List.append h ext
  | [], h => ⟨[], by simp [pyCopyCols]⟩
  | (n, l) :: rest, h => by
    unfold pyCopyCols
    simp only [Heap.alloc]
    obtain ⟨ext, hext⟩ := pyCopyCols_append rest (List.append h [Heap.read h l])
    refine ⟨[Heap.read h l] ++ ext, ?_⟩
    rw [hext]
    simp

lemma pyCopyCols_frame (cols : List (String × ℕ)) (h : Heap) (l : ℕ)
    (hl : l < h.length) : Heap.read (pyCopyCols h cols).1 l = Heap.read h l := by
  obtain ⟨ext, hext⟩ := pyCopyCols_append cols h
  rw [hext]
  exact Heap.read_append h ext l hl

lemma pyCopyCols_length (cols : List (String × ℕ)) (h : Heap) :
    h.length ≤ (pyCopyCols h cols).1.length := by
  obtain ⟨ext, hext⟩ := pyCopyCols_append cols h
  rw [hext]
  simp only [List.append_eq, List.length_append]
  omega

/-- All column buffers of the pandas deep copy are freshly allocated. -/
lemma pyCopyCols_locs :
    ∀ (cols : List (String × ℕ)) (h : Heap),
      ∀ p ∈ (pyCopyCols h cols).2, h.length ≤ p.2
  | [], _, p, hp => absurd hp (List.not_mem_nil p)
  | (n, l) :: rest, h, p, hp => by
    unfold pyCopyCols at hp
    simp only [Heap.alloc] at hp
    rcases List.mem_cons.mp hp with hp | hp
    · rw [hp]
    · have := pyCopyCols_locs rest (List.append h [Heap.read h l]) p hp
      simp only [List.append_eq, List.length_append, List.length_singleton] at this
      omega

/-- C9: every transform is purely functional over the input table — for each
of `MedianFilterDetrend`, `SavGolFilterDetrend`, `EventRescale` and
`OASISInferer` (any configuration, smoothing core, log model and solver),
every buffer existing before the call — in particular every input column —
holds the same values after `transform` as before it: only the `X_new` copy
and the `astype` scratch copies are written. -/
theorem transforms_no_input_mutation
    (window order : ℕ) (thr scale : ℚ) (core : ℕ → ℕ → List ℚ → List ℚ)
    (log_transform : Bool) (lg : ℚ → ℚ) (solver : List ℚ → List ℚ × List ℚ)
    (output : String) (h : Heap) (X : HTable) (l : ℕ) (hl : l < h.length) :
    Heap.read (MedianFilterDetrend.transformHeap window thr h X).1 l
        = Heap.read h l ∧
    Heap.read (SavGolFilterDetrend.transformHeap core window order h X).1 l
        = Heap.read h l ∧
    Heap.read (EventRescale.transformHeap log_transform scale lg h X).1 l
        = Heap.read h l ∧
    Heap.read (OASISInferer.transformHeap solver output h X).1 l
        = Heap.read h l := by
  have hlen : h.length ≤ (pyCopyCols h X).1.length := pyCopyCols_length X h
  have hlocs : ∀ pr ∈ (X.map Prod.snd).zip ((pyCopyCols h X).2.map Prod.snd),
      h.length ≤ pr.2 := by
    intro pr hpr
    obtain ⟨s, d⟩ := pr
    have hd := (List.of_mem_zip hpr).2
    obtain ⟨q, hq, hq2⟩ := List.mem_map.mp hd
    rw [← hq2]
    exact pyCopyCols_locs X h q hq
  refine ⟨?_, ?_, ?_, ?_⟩
  · unfold MedianFilterDetrend.transformHeap
    rw [colLoop_frame _ h.length _ _ hlen hlocs l hl]
    exact pyCopyCols_frame X h l hl
  · unfold SavGolFilterDetrend.transformHeap
    rw [colLoop_frame _ h.length _ _ hlen hlocs l hl]
    exact pyCopyCols_frame X h l hl
  · unfold EventRescale.transformHeap
    rw [erLoop_frame _ _ _ h.length _ _ hlen hlocs l hl]
    exact pyCopyCols_frame X h l hl
  · unfold OASISInferer.transformHeap
    rw [colLoop_frame _ h.length _ _ hlen hlocs l hl]
    exact pyCopyCols_frame X h l hl

/-- Witness for C9 on a one-buffer heap and one-column table. -/
theorem transforms_no_input_mutation_witness :
    ((0 : ℕ) < ([[(1 : ℚ)]] : Heap).length ∧
      Heap.read (MedianFilterDetrend.transformHeap 1 4 [[(1 : ℚ)]]
          [("a", 0)]).1 0 = Heap.read [[(1 : ℚ)]] 0 ∧
      Heap.read (SavGolFilterDetrend.transformHeap (fun _ _ v => v) 3 1
          [[(1 : ℚ)]] [("a", 0)]).1 0 = Heap.read [[(1 : ℚ)]] 0 ∧
      Heap.read (EventRescale.transformHeap true 5 (fun v => v)
          [[(1 : ℚ)]] [("a", 0)]).1 0 = Heap.read [[(1 : ℚ)]] 0 ∧
      Heap.read (OASISInferer.transformHeap (fun v => (v, v)) "spikes"
          [[(1 : ℚ)]] [("a", 0)]).1 0 = Heap.read [[(1 : ℚ)]] 0) := by
  have hl : (0 : ℕ) < ([[(1 : ℚ)]] : Heap).length := by
    simp [List.length_singleton]
  exact ⟨hl, transforms_no_input_mutation 3 1 4 5 (fun _ _ v => v) true
    (fun v => v) (fun v => (v, v)) "spikes" [[(1 : ℚ)]] [("a", 0)] 0 hl⟩

/-! ### C3: normalize_trace on a constant column -/

lemma insertionSort_replicate (n : ℕ) (c : ℚ) :
    (List.replicate n c).insertionSort (· ≤ ·) = List.replicate n c :=
  List.Sorted.insertionSort_eq
    (List.pairwise_replicate.mpr (Or.inr (le_refl c)))

lemma getD_replicate_of_lt (n : ℕ) (c d : ℚ) (i : ℕ) (hi : i < n) :
    (List.replicate n c).getD i d = c := by
  rw [List.getD_eq_getElem?_getD, List.getElem?_replicate_of_lt hi]
  rfl

/-- Any percentile (with `0 ≤ q ≤ 100`) of a constant sample is the constant. -/
lemma npPercentile_replicate (n : ℕ) (c q : ℚ) (hn : 0 < n)
    (hq0 : 0 ≤ q) (hq1 : q ≤ 100) :
    npPercentile (List.replicate n c) q = c := by
  unfold npPercentile
  rw [insertionSort_replicate]
  simp only [List.length_replicate]
  rw [if_neg (by omega)]
  have h0 : (0 : ℚ) ≤ q / 100 * ((n : ℚ) - 1) := by
    apply mul_nonneg (div_nonneg hq0 (by norm_num))
    have h1n : (1 : ℚ) ≤ (n : ℚ) := by exact_mod_cast hn
    linarith
  have h1 : q / 100 * ((n : ℚ) - 1) ≤ (n : ℚ) - 1 := by
    have hqle : q / 100 ≤ 1 := by linarith
    have h1n : (0 : ℚ) ≤ (n : ℚ) - 1 := by
      have : (1 : ℚ) ≤ (n : ℚ) := by exact_mod_cast hn
      linarith
    nlinarith
  have hlo0 : 0 ≤ ⌊q / 100 * ((n : ℚ) - 1)⌋ := Int.floor_nonneg.mpr h0
  have hlon : ⌊q / 100 * ((n : ℚ) - 1)⌋ ≤ (n : ℤ) - 1 := by
    have hcast : ((n : ℤ) - 1 : ℤ) = ⌊((n : ℚ) - 1 : ℚ)⌋ := by
      rw [show ((n : ℚ) - 1 : ℚ) = (((n : ℤ) - 1 : ℤ) : ℚ) by push_cast; ring,
        Int.floor_intCast]
    rw [hcast]
    exact Int.floor_le_floor h1
  have hlt : (⌊q / 100 * ((n : ℚ) - 1)⌋).toNat < n := by omega
  have hhi : min ((⌊q / 100 * ((n : ℚ) - 1)⌋).toNat + 1) (n - 1) < n := by omega
  rw [getD_replicate_of_lt _ _ _ _ hlt, getD_replicate_of_lt _ _ _ _ hhi]
  ring

/-- Inside a fully-contained window, the rolling window over a constant
series is the constant window. -/
lemma rollingApply_replicate_window (w L : ℕ) (c : ℚ) (t : ℕ)
    (hc1 : 0 ≤ (t : ℤ) - (((w - 1) / 2 : ℕ) : ℤ))
    (hc2 : (t : ℤ) - (((w - 1) / 2 : ℕ) : ℤ) + (w : ℤ) ≤ (L : ℤ)) :
    ((List.range w).map fun j =>
        (List.replicate L c).getD
          ((((t : ℤ) - (((w - 1) / 2 : ℕ) : ℤ)).toNat) + j) 0)
      = List.replicate w c := by
  apply List.eq_replicate_iff.mpr
  refine ⟨by simp, ?_⟩
  intro b hb
  obtain ⟨j, hj, rfl⟩ := List.mem_map.mp hb
  have hjw : j < w := List.mem_range.mp hj
  apply getD_replicate_of_lt
  omega

/-- Every entry of the rolling percentile of a constant series is NaN or the
constant. -/
lemma rollingApply_replicate_mem (w L : ℕ) (c q : ℚ) (hw1 : 1 ≤ w)
    (hq0 : 0 ≤ q) (hq1 : q ≤ 100) :
    ∀ a ∈ rollingApply (fun win => npPercentile win q) w (List.replicate L c),
      a = none ∨ a = some c := by
  intro a ha
  unfold rollingApply at ha
  simp only [List.length_replicate, List.mem_map] at ha
  obtain ⟨t, _, rfl⟩ := ha
  by_cases hcond : 0 ≤ (t : ℤ) - (((w - 1) / 2 : ℕ) : ℤ) ∧
      (t : ℤ) - (((w - 1) / 2 : ℕ) : ℤ) + (w : ℤ) ≤ (L : ℤ)
  · right
    rw [if_pos hcond, rollingApply_replicate_window w L c t hcond.1 hcond.2,
      npPercentile_replicate w c q (by omega) hq0 hq1]
  · left
    rw [if_neg hcond]

/-- With `1 ≤ w ≤ L` at least one window is fully contained, so the rolling
percentile of a constant series contains the constant. -/
lemma rollingApply_replicate_some (w L : ℕ) (c q : ℚ) (hw1 : 1 ≤ w)
    (hwL : w ≤ L) (hq0 : 0 ≤ q) (hq1 : q ≤ 100) :
    some c ∈ rollingApply (fun win => npPercentile win q) w (List.replicate L c) := by
  unfold rollingApply
  simp only [List.length_replicate, List.mem_map]
  refine ⟨(w - 1) / 2, ?_, ?_⟩
  · exact List.mem_range.mpr (by omega)
  · have hcond : 0 ≤ ((((w - 1) / 2 : ℕ) : ℤ)) - (((w - 1) / 2 : ℕ) : ℤ) ∧
        ((((w - 1) / 2 : ℕ) : ℤ)) - (((w - 1) / 2 : ℕ) : ℤ) + (w : ℤ) ≤ (L : ℤ) := by
      constructor
      · omega
      · omega
    rw [if_pos hcond,
      rollingApply_replicate_window w L c ((w - 1) / 2) hcond.1 hcond.2,
      npPercentile_replicate w c q (by omega) hq0 hq1]

lemma ffillGo_all_some (c : ℚ) :
    ∀ l : List (Option ℚ), (∀ a ∈ l, a = none ∨ a = some c) →
      ffillGo (some c) l = List.replicate l.length (some c)
  | [], _ => rfl
  | a :: rest, h => by
    rcases h a (by simp) with rfl | rfl
    · show (some c) :: ffillGo (some c) rest = _
      rw [ffillGo_all_some c rest (fun b hb => h b (by simp [hb]))]
      simp [List.replicate_succ]
    · show (some c) :: ffillGo (some c) rest = _
      rw [ffillGo_all_some c rest (fun b hb => h b (by simp [hb]))]
      simp [List.replicate_succ]

lemma ffillGo_none_exists (c : ℚ) :
    ∀ l : List (Option ℚ), (∀ a ∈ l, a = none ∨ a = some c) →
      some c ∈ l →
      ∃ k, k < l.length ∧
        ffillGo none l
          = List.replicate k none ++ List.replicate (l.length - k) (some c)
  | [], _, hmem => absurd hmem (List.not_mem_nil _)
  | a :: rest, h, hmem => by
    rcases h a (by simp) with rfl | rfl
    · have hmem' : some c ∈ rest := by
        rcases List.mem_cons.mp hmem with h1 | h1
        · exact absurd h1 (by simp)
        · exact h1
      obtain ⟨k, hk, heq⟩ :=
        ffillGo_none_exists c rest (fun b hb => h b (by simp [hb])) hmem'
      refine ⟨k + 1, by simp; omega, ?_⟩
      show (none : Option ℚ) :: ffillGo none rest = _
      rw [heq]
      simp [List.replicate_succ]
    · refine ⟨0, by simp, ?_⟩
      show (some c) :: ffillGo (some c) rest = _
      rw [ffillGo_all_some c rest (fun b hb => h b (by simp [hb]))]
      simp [List.replicate_succ]

/-- `bfill` then `ffill` of a NaN-or-`c` series containing at least one `c`
yields the constant-`c` series: exactly the edge-fill policy of
`normalize_trace` on a constant input. -/
lemma bfill_then_ffill_all_some (c : ℚ) (l : List (Option ℚ))
    (h : ∀ a ∈ l, a = none ∨ a = some c) (hmem : some c ∈ l) :
    ffill (bfill l) = List.replicate l.length (some c) := by
  unfold bfill ffill
  have hrev : ∀ a ∈ l.reverse, a = none ∨ a = some c := by
    intro a ha
    exact h a (List.mem_reverse.mp ha)
  have hmemrev : some c ∈ l.reverse := List.mem_reverse.mpr hmem
  obtain ⟨k, hk, heq⟩ := ffillGo_none_exists c l.reverse hrev hmemrev
  rw [heq, List.length_reverse] at *
  rw [List.reverse_append, List.reverse_replicate, List.reverse_replicate]
  obtain ⟨p, hp⟩ : ∃ p, l.length - k = p + 1 := ⟨l.length - k - 1, by omega⟩
  rw [hp, List.replicate_succ, List.cons_append]
  show (some c) :: ffillGo (some c) (List.replicate p (some c) ++ List.replicate k none) = _
  rw [ffillGo_all_some c (List.replicate p (some c) ++ List.replicate k none)
    (by
      intro b hb
      rcases List.mem_append.mp hb with hb | hb
      · exact Or.inr (List.eq_of_mem_replicate hb)
      · exact Or.inl (List.eq_of_mem_replicate hb))]
  have hlen : l.length = (p + k) + 1 := by omega
  rw [hlen]
  simp [List.replicate_succ, List.length_append]

/-- C3 (code bug): `normalize_trace` as written raises `NameError` on every
call — `pandas` is never imported — so it cannot return `dFF = 0` (or any
value at all) for a constant column. -/
theorem normalize_trace_raises (trace : List ℚ) (window : ℕ)
    (percentile : ℚ) :
    normalize_trace trace window percentile = .error .nameError := rfl

/-- Supporting fact for C3: the claimed property is right about the intended
computation — on a constant nonzero column with `1 ≤ window ≤ length` and
percentile in `[0, 100]`, the spec-modelled rolling-percentile dF/F is `0`
at every position: the baseline equals the constant and the numerator is
zero. -/
theorem normalize_trace_constant (c : ℚ) (L w : ℕ) (q : ℚ)
    (hc : c ≠ 0) (hw1 : 1 ≤ w) (hwL : w ≤ L) (hq0 : 0 ≤ q) (hq1 : q ≤ 100) :
    normalize_trace_intended (List.replicate L c) w q
      = List.replicate L (some 0) := by
  unfold normalize_trace_intended
  have hlenroll :
      (rollingApply (fun win => npPercentile win q) w
        (List.replicate L c)).length = L := by
    simp [rollingApply]
  have hbase :
      ffill (bfill (rollingApply (fun win => npPercentile win q) w
          (List.replicate L c)))
        = List.replicate L (some c) := by
    rw [bfill_then_ffill_all_some c _
      (rollingApply_replicate_mem w L c q hw1 hq0 hq1)
      (rollingApply_replicate_some w L c q hw1 hwL hq0 hq1), hlenroll]
  rw [hbase, List.zipWith_replicate']
  congr 1
  simp [hc]

/-- Witness for the supporting C3 fact at `c = 1`, `L = 2`, `w = 1`,
`q = 50`. -/
theorem normalize_trace_constant_witness :
    (((1 : ℚ) ≠ 0 ∧ 1 ≤ 1 ∧ 1 ≤ 2 ∧ (0 : ℚ) ≤ 50 ∧ (50 : ℚ) ≤ 100) ∧
      normalize_trace_intended (List.replicate 2 (1 : ℚ)) 1 50
        = List.replicate 2 (some 0)) :=
  ⟨⟨one_ne_zero, le_refl 1, by omega, by norm_num, by norm_num⟩,
    normalize_trace_constant 1 2 1 50 one_ne_zero (le_refl 1) (by omega)
      (by norm_num) (by norm_num)⟩
